import Mathlib

/-! Scheduler tasks of the signer (`signer/src/scheduler/task.c`)

A shallow embedding of the task abstraction of the signer daemon: the task
record, its constructor, the comparator used by the schedule and the guarded
executor, followed by the properties proved about them.

Conventions of the embedding

* A C string is the list of its bytes before the terminating NUL, every byte
  in `1 .. 255` (`CStr`).
* A nullable pointer is an `Option`; `none` is `NULL`.
* `time_t` is the 64-bit signed integer of the platform and `int` is 32 bits
  wide.  Values are mathematical integers; each conversion between the two
  widths is written out with `wrapInt`.
* A function pointer is an address; the behaviour of the code behind an
  address is given by a `Code` table.  A callback is arbitrary code: it gets
  the whole memory (the task included) and hands back a return value and the
  memory it leaves behind.
-/

namespace Signer

/-! ## Machine integers -/

/-- Two's-complement reduction of an integer to `w` bits (`w ≥ 1`): the unique
value in `[-2^(w-1), 2^(w-1))` congruent to `z` modulo `2^w`. -/
def wrapInt (w : Nat) (z : Int) : Int :=
  (z + 2 ^ (w - 1)) % 2 ^ w - 2 ^ (w - 1)

/-- Conversion to `int` (32 bits). -/
def toInt32 (z : Int) : Int := wrapInt 32 z

/-- Arithmetic result in `time_t`/`long` (64 bits). -/
def toInt64 (z : Int) : Int := wrapInt 64 z

/-- Range of the 64-bit `time_t`. -/
def inTimeT (z : Int) : Prop := -(2 ^ 63) ≤ z ∧ z < 2 ^ 63

instance (z : Int) : Decidable (inTimeT z) := by
  unfold inTimeT; infer_instance

/-! ## C strings -/

/-- The bytes of a NUL-terminated string, terminator excluded. -/
structure CStr where
  bytes : List Nat
  wf : ∀ b ∈ bytes, 0 < b ∧ b < 256

instance : DecidableEq CStr := fun s t =>
  if h : s.bytes = t.bytes then
    isTrue (by cases s; cases t; cases h; rfl)
  else isFalse (fun e => h (congrArg CStr.bytes e))

/-- Byte loop of `strcmp`: walk both strings while the bytes agree; at the first
disagreement return the difference of the two bytes (read as `unsigned char`).
An exhausted list stands for the terminating NUL, byte `0`. -/
def strcmpBytes : List Nat → List Nat → Int
  | [], [] => 0
  | [], b :: _ => 0 - (b : Int)
  | a :: _, [] => (a : Int) - 0
  | a :: s, b :: t => if a = b then strcmpBytes s t else (a : Int) - (b : Int)

/-- The C library `strcmp` on two strings. -/
def strcmp (s t : CStr) : Int := strcmpBytes s.bytes t.bytes

/-! ## The task record -/

/-- An address (of a function, a mutex, a payload or a context). -/
abbrev Ptr := Nat

/-- The record `task_type`. -/
structure task_type where
  owner : CStr
  class_ : CStr
  type : CStr
  callback : Option Ptr
  userdata : Ptr
  freedata : Option Ptr
  due_date : Int
  backoff : Int
  flush : Int
  lock : Option Ptr
deriving DecidableEq

/-! ## `task_compare` -/

/-- The comparator `task_compare(a, b)`.

The first return statement is `return (int) x->due_date - y->due_date;`.  The
cast binds tighter than the subtraction, so `x->due_date` is converted to `int`
first, the subtraction is then carried out in `time_t`, and the difference is
converted to the `int` return type.  Conversions to a narrower signed type keep
the low bits; a subtraction that leaves the 64-bit range is taken to wrap. -/
def task_compare (x y : task_type) : Int :=
  if x.due_date ≠ y.due_date then
    toInt32 (toInt64 (toInt32 x.due_date - y.due_date))
  else if strcmp x.type y.type ≠ 0 then
    strcmp x.type y.type
  else
    strcmp x.owner y.owner

/-! ## `task_create` -/

/-- The constructor `task_create`.  The three `ods_log_assert` lines stop the
call when `owner`, `class` or `type` is `NULL` (result `none`); otherwise every
field is written from the corresponding argument, `lock` is set to `NULL` and
`backoff` and `flush` to `0`.  `CHECKALLOC` ends the process when `malloc`
fails; the embedding covers the calls in which the allocation succeeds. -/
def task_create (owner class_ type : Option CStr) (callback : Option Ptr)
    (userdata : Ptr) (freedata : Option Ptr) (due_date : Int) : Option task_type :=
  match owner with
  | none => none
  | some o =>
    match class_ with
    | none => none
    | some c =>
      match type with
      | none => none
      | some t =>
        some { owner := o, class_ := c, type := t, callback := callback,
               userdata := userdata, freedata := freedata, due_date := due_date,
               lock := none, backoff := 0, flush := 0 }

/-! ## `task_execute` -/

/-- What the executor does to the outside, in program order. -/
inductive Event where
  | acquire (lock : Ptr)
  | call (f : Ptr) (owner : CStr) (userdata : Ptr) (context : Ptr)
  | release (lock : Ptr)
deriving DecidableEq

/-- Is the event a callback invocation? -/
def Event.isCall : Event → Bool
  | Event.call _ _ _ _ => true
  | _ => false

/-- Is the event a `pthread_mutex_lock`? -/
def Event.isAcquire : Event → Bool
  | Event.acquire _ => true
  | _ => false

/-- Is the event a `pthread_mutex_unlock`? -/
def Event.isRelease : Event → Bool
  | Event.release _ => true
  | _ => false

/-- The memory a callback can reach: the task record itself and everything
else (`rest`). -/
structure Mem (W : Type) where
  task : task_type
  rest : W

/-- The code behind each function address: called with `(owner, userdata,
context)` on a memory, it returns a `time_t` and the memory it leaves. -/
abbrev Code (W : Type) := Ptr → CStr → Ptr → Ptr → Mem W → Int × Mem W

/-- Outcome of one `task_execute` call: the returned `time_t` (`none` when the
call does not return), the memory it leaves and the completed lock operations
and calls, in program order. -/
structure ExecResult (W : Type) where
  ret : Option Int
  mem : Mem W
  trace : List Event

/-- The executor `task_execute(task, context)`.

Without a callback it returns `-1` at once.  With a callback and a lock it runs
`pthread_mutex_lock(task->lock)`, the callback, and then
`pthread_mutex_unlock(task->lock)`, where `task->lock` is read again from the
memory the callback left.  If the callback left `NULL` there, the unlock is
called on `NULL` and the call does not return: no release is completed and
there is no return value.  With a callback and no lock it runs the callback
alone. -/
def task_execute {W : Type} (code : Code W) (m : Mem W) (context : Ptr) : ExecResult W :=
  match m.task.callback with
  | none => { ret := some (-1), mem := m, trace := [] }
  | some f =>
    match m.task.lock with
    | some l =>
      let r := code f m.task.owner m.task.userdata context m
      match r.2.task.lock with
      | some l2 =>
        { ret := some r.1, mem := r.2,
          trace := [Event.acquire l,
                    Event.call f m.task.owner m.task.userdata context,
                    Event.release l2] }
      | none =>
        { ret := none, mem := r.2,
          trace := [Event.acquire l,
                    Event.call f m.task.owner m.task.userdata context] }
    | none =>
      let r := code f m.task.owner m.task.userdata context m
      { ret := some r.1, mem := r.2,
        trace := [Event.call f m.task.owner m.task.userdata context] }

/-! ## Concrete strings, tasks and callbacks used as test inputs -/

/-- The class string `"signer"`. -/
def TASK_CLASS_SIGNER : CStr := ⟨[115, 105, 103, 110, 101, 114], by decide⟩

/-- The type string `"[read]"`. -/
def TASK_READ : CStr := ⟨[91, 114, 101, 97, 100, 93], by decide⟩

/-- The type string `"[sign]"`. -/
def TASK_SIGN : CStr := ⟨[91, 115, 105, 103, 110, 93], by decide⟩

/-- The owner string `"zone-a"`. -/
def zoneA : CStr := ⟨[122, 111, 110, 101, 45, 97], by decide⟩

/-- The owner string `"zone-b"`. -/
def zoneB : CStr := ⟨[122, 111, 110, 101, 45, 98], by decide⟩

/-- A task as `task_create` leaves it, with the given key fields. -/
def sampleTask (due : Int) (type owner : CStr) : task_type :=
  { owner := owner, class_ := TASK_CLASS_SIGNER, type := type, callback := none,
    userdata := 0, freedata := none, due_date := due, backoff := 0, flush := 0,
    lock := none }

/-- A callback table whose every entry bumps a counter in the rest of the
memory, leaves the task alone and asks to run again 60 seconds after the due
date. -/
def countingCode : Code Nat :=
  fun _ _ _ _ m => (m.task.due_date + 60, { m with rest := m.rest + 1 })

/-- A callback table whose every entry stores the mutex address `8` in the
task's `lock` field and asks not to be rescheduled. -/
def relockCode : Code Nat :=
  fun _ _ _ _ m => (-1, { m with task := { m.task with lock := some 8 } })

/-- A callback table whose every entry stores `NULL` in the task's `lock`
field and asks to run again at time `60`. -/
def dropLockCode : Code Nat :=
  fun _ _ _ _ m => (60, { m with task := { m.task with lock := none } })

/-- A memory holding a `"[sign]"` task for `"zone-a"` due at `100`, with the
given callback and lock, payload at address `5` and counter `0`. -/
def sampleMem (callback lock : Option Ptr) : Mem Nat :=
  { task := { sampleTask 100 TASK_SIGN zoneA with
              callback := callback, lock := lock, userdata := 5 },
    rest := 0 }

/-! ## `task_destroy` -/

/-- What `task_destroy` does to the outside, in program order. -/
inductive DestroyEvent where
  | freeOwner (owner : CStr)
  | freedata (f : Ptr) (userdata : Ptr)
  | freeTask
deriving DecidableEq

/-- Is the event the release of the owner string? -/
def DestroyEvent.isFreeOwner : DestroyEvent → Bool
  | DestroyEvent.freeOwner _ => true
  | _ => false

/-- Is the event a call of a free-data callback? -/
def DestroyEvent.isFreedata : DestroyEvent → Bool
  | DestroyEvent.freedata _ _ => true
  | _ => false

/-- The destructor `task_destroy(task)` on a non-null task: `free(task->owner)`,
then `task->freedata(task->userdata)` when `freedata` is not `NULL`, then
`free(task)`. -/
def task_destroy (task : task_type) : List DestroyEvent :=
  [DestroyEvent.freeOwner task.owner] ++
    (match task.freedata with
     | some f => [DestroyEvent.freedata f task.userdata]
     | none => []) ++
    [DestroyEvent.freeTask]

/-! ## `task_log` -/

/-- The bytes of an ASCII string literal. -/
def ascii (s : String) : List Nat := s.toList.map Char.toNat

/-- Expansion of a `printf` format in which every directive is `%s` (bytes
`37`, `115`): each directive is replaced by the next argument, every other byte
is copied. -/
def expandFormat : List Nat → List (List Nat) → List Nat
  | [], _ => []
  | [c], _ => [c]
  | c :: d :: rest, args =>
    if c = 37 ∧ d = 115 then
      match args with
      | [] => expandFormat rest []
      | a :: more => a ++ expandFormat rest more
    else c :: expandFormat (d :: rest) args

/-- What `task_log` does to the outside, in program order. -/
inductive LogEvent where
  | ctime (t : Int)
  | debug (line : List Nat)
deriving DecidableEq

/-- Is the event a line handed to the debug log? -/
def LogEvent.isDebug : LogEvent → Bool
  | LogEvent.debug _ => true
  | _ => false

/-- Modelled from the spec: `ods_log_debug` is defined outside the sources at
hand (`log.h` is only included); the diagnostics operation emits one formatted
line per call, so a call is the single event carrying the expansion of its
format with its arguments. -/
def ods_log_debug (format : List Nat) (args : List (List Nat)) : List LogEvent :=
  [LogEvent.debug (expandFormat format args)]

/-- The static string `task_str`. -/
def task_str : List Nat := ascii "task"

/-- The diagnostics routine `task_log(task)`.  `ctime` is the C library
formatter: it returns a string or `NULL`.  The result is `none` when the routine
leaves defined behaviour (`strtime[strlen(strtime)-1]` with an empty `strtime`
writes before the buffer), otherwise the events in program order. -/
def task_log (ctime : Int → Option CStr) (task : Option task_type) :
    Option (List LogEvent) :=
  match task with
  | none => some []
  | some t =>
    match ctime t.due_date with
    | none =>
      some (LogEvent.ctime t.due_date ::
        ods_log_debug (ascii "[%s] %s %s I will %s zone %s")
          [task_str, if t.flush ≠ 0 then ascii "Flush" else ascii "On",
           ascii "(null)", t.type.bytes, t.owner.bytes])
    | some strtime =>
      if strtime.bytes = [] then none
      else
        some (LogEvent.ctime t.due_date ::
          ods_log_debug (ascii "[%s] %s %s I will %s zone %s")
            [task_str, if t.flush ≠ 0 then ascii "Flush" else ascii "On",
             strtime.bytes.dropLast, t.type.bytes, t.owner.bytes])

/-- A formatter that always fails. -/
def ctimeNull : Int → Option CStr := fun _ => none

/-- A formatter that always answers `"Thu Jan  1 00:01:40 1970\n"`. -/
def ctimeFixed : Int → Option CStr := fun _ =>
  some ⟨[84, 104, 117, 32, 74, 97, 110, 32, 32, 49, 32, 48, 48, 58, 48, 49, 58, 52, 48,
         32, 49, 57, 55, 48, 10], by decide⟩

end Signer

/-! ## Keyword tables (`libksm/src/ksm_keyword.c`) -/

namespace Ksm

open Signer

/-- The record `STR_KEYWORD_ELEMENT`: a keyword string (or `NULL`) and a
number. -/
structure STR_KEYWORD_ELEMENT where
  string : Option CStr
  value : Int
deriving DecidableEq

/-- The shape of the five static tables of the file: the listed entries, each
with a non-null string, followed by the terminator `{NULL, -1}`. -/
def keywordTable (entries : List (CStr × Int)) : List STR_KEYWORD_ELEMENT :=
  entries.map (fun e => { string := some e.1, value := e.2 }) ++
    [{ string := none, value := -1 }]

/-- The table `m_algorithm_keywords`.  Its strings and values are macros of
`ksm.h`, which is not among the sources; they are a parameter, in table
order. -/
def m_algorithm_keywords (entries : List (CStr × Int)) : List STR_KEYWORD_ELEMENT :=
  keywordTable entries

/-- The table `m_format_keywords`, its `ksm.h` constants a parameter. -/
def m_format_keywords (entries : List (CStr × Int)) : List STR_KEYWORD_ELEMENT :=
  keywordTable entries

/-- The table `m_state_keywords`, its `ksm.h` constants a parameter. -/
def m_state_keywords (entries : List (CStr × Int)) : List STR_KEYWORD_ELEMENT :=
  keywordTable entries

/-- The table `m_type_keywords`, its `ksm.h` constants a parameter. -/
def m_type_keywords (entries : List (CStr × Int)) : List STR_KEYWORD_ELEMENT :=
  keywordTable entries

/-- The table `m_parameter_keywords`, its `ksm.h` constants a parameter. -/
def m_parameter_keywords (entries : List (CStr × Int)) : List STR_KEYWORD_ELEMENT :=
  keywordTable entries

/-- The routine `KsmKeywordValueToName(elements, value)`.  The array is the
list of its elements; the loop runs while `elements[i].string` is not `NULL`
and stops at the first element whose value is `value`.  The outer `none` is a
read past the end of the array (no terminator); the inner option is the
returned pointer. -/
def KsmKeywordValueToName : List STR_KEYWORD_ELEMENT → Int → Option (Option CStr)
  | [], _ => none
  | e :: rest, value =>
    match e.string with
    | none => some none
    | some str => if value = e.value then some (some str) else KsmKeywordValueToName rest value

/-- The routine `KsmKeywordAlgorithmValueToName`. -/
def KsmKeywordAlgorithmValueToName (entries : List (CStr × Int)) (value : Int) :
    Option (Option CStr) :=
  KsmKeywordValueToName (m_algorithm_keywords entries) value

/-- The routine `KsmKeywordFormatValueToName`. -/
def KsmKeywordFormatValueToName (entries : List (CStr × Int)) (value : Int) :
    Option (Option CStr) :=
  KsmKeywordValueToName (m_format_keywords entries) value

/-- The routine `KsmKeywordStateValueToName`. -/
def KsmKeywordStateValueToName (entries : List (CStr × Int)) (value : Int) :
    Option (Option CStr) :=
  KsmKeywordValueToName (m_state_keywords entries) value

/-- The routine `KsmKeywordTypeValueToName`. -/
def KsmKeywordTypeValueToName (entries : List (CStr × Int)) (value : Int) :
    Option (Option CStr) :=
  KsmKeywordValueToName (m_type_keywords entries) value

/-- The loop of `KsmKeywordParameterExists` over the table, for a non-null
`name`: `1` at the first element whose string `strcmp` finds equal to `name`,
`0` at the terminator; `none` is a read past the end of the array. -/
def parameterExistsLoop : List STR_KEYWORD_ELEMENT → CStr → Option Int
  | [], _ => none
  | e :: rest, name =>
    match e.string with
    | none => some 0
    | some str => if strcmp name str = 0 then some 1 else parameterExistsLoop rest name

/-- The routine `KsmKeywordParameterExists(name)`: `0` for a `NULL` name,
otherwise the outcome of the loop over `m_parameter_keywords`. -/
def KsmKeywordParameterExists (entries : List (CStr × Int)) (name : Option CStr) :
    Option Int :=
  match name with
  | none => some 0
  | some n => parameterExistsLoop (m_parameter_keywords entries) n

/-- The string `"soamin"`. -/
def kwSoamin : CStr := ⟨[115, 111, 97, 109, 105, 110], by decide⟩

/-- The string `"soattl"`. -/
def kwSoattl : CStr := ⟨[115, 111, 97, 116, 116, 108], by decide⟩

/-- The string `"soa"`, a proper beginning of both strings above. -/
def kwSoa : CStr := ⟨[115, 111, 97], by decide⟩

/-- A sample of table entries: `"soamin"` with `7200` and `"soattl"` with
`3600`. -/
def sampleEntries : List (CStr × Int) := [(kwSoamin, 7200), (kwSoattl, 3600)]

end Ksm

/-! ## The key store (`softHSM/src/SoftKeyStore.cpp`) -/

namespace SoftHSM

/-- The address of a `Private_Key` object. -/
abbrev KeyPtr := Nat

/-- A chain of `SoftKeyStore` objects.  `last` is an object whose `next` is
`NULL_PTR`; `node` is an object with a `next`.  Both carry their `botanKey`
(possibly `NULL_PTR`) and `index` members. -/
inductive SoftKeyStore where
  | last (botanKey : Option KeyPtr) (index : Int)
  | node (botanKey : Option KeyPtr) (index : Int) (next : SoftKeyStore)
deriving DecidableEq

/-- The constructor `SoftKeyStore::SoftKeyStore()`: no `next`, no key, index
`0`. -/
def newSoftKeyStore : SoftKeyStore := SoftKeyStore.last none 0

/-- The method `SoftKeyStore::addKey(newIndex, newKey)`: the last object of the
chain gets a fresh `next`, the key and the index; every other object passes the
call on. -/
def SoftKeyStore.addKey : SoftKeyStore → Int → Option KeyPtr → SoftKeyStore
  | SoftKeyStore.last _ _, newIndex, newKey =>
    SoftKeyStore.node newKey newIndex newSoftKeyStore
  | SoftKeyStore.node k i next, newIndex, newKey =>
    SoftKeyStore.node k i (next.addKey newIndex newKey)

/-- The method `SoftKeyStore::removeKey(removeIndex)`: the first object with a
`next` whose index is `removeIndex` takes over `index`, `botanKey` and `next`
of its successor; an object with another index passes the call on; the last
object returns at once. -/
def SoftKeyStore.removeKey : SoftKeyStore → Int → SoftKeyStore
  | SoftKeyStore.last k i, _ => SoftKeyStore.last k i
  | SoftKeyStore.node k i next, removeIndex =>
    if removeIndex = i then
      match next with
      | SoftKeyStore.last k2 i2 => SoftKeyStore.last k2 i2
      | SoftKeyStore.node k2 i2 next2 => SoftKeyStore.node k2 i2 next2
    else SoftKeyStore.node k i (next.removeKey removeIndex)

/-- The method `SoftKeyStore::getKey(getIndex)`: the key of the first object
with a `next` whose index is `getIndex`; `NULL_PTR` at the last object. -/
def SoftKeyStore.getKey : SoftKeyStore → Int → Option KeyPtr
  | SoftKeyStore.last _ _, _ => none
  | SoftKeyStore.node k i next, getIndex =>
    if getIndex = i then k else next.getKey getIndex

/-- The indices held by the store, in chain order: those of the objects that
have a `next`. -/
def SoftKeyStore.indices : SoftKeyStore → List Int
  | SoftKeyStore.last _ _ => []
  | SoftKeyStore.node _ i next => i :: next.indices

/-- A call on a store. -/
inductive Op where
  | addKey (index : Int) (key : Option KeyPtr)
  | removeKey (index : Int)
deriving DecidableEq

/-- One call applied to a store. -/
def SoftKeyStore.step (s : SoftKeyStore) : Op → SoftKeyStore
  | Op.addKey i k => s.addKey i k
  | Op.removeKey i => s.removeKey i

/-- The store built from a freshly constructed one by a sequence of calls. -/
def build (ops : List Op) : SoftKeyStore :=
  ops.foldl SoftKeyStore.step newSoftKeyStore

end SoftHSM

namespace Signer

/-! ## Properties of `strcmp` -/

theorem CStr.ext_bytes {s t : CStr} (h : s.bytes = t.bytes) : s = t := by
  cases s; cases t; cases h; rfl

/-- Swapping the arguments of the byte loop negates its result. -/
theorem strcmpBytes_swap (s t : List Nat) : strcmpBytes t s = -strcmpBytes s t := by
  induction s generalizing t with
  | nil => cases t <;> simp [strcmpBytes]
  | cons a s ih =>
    cases t with
    | nil => simp [strcmpBytes]
    | cons b t =>
      by_cases h : a = b
      · subst h; simp [strcmpBytes, ih]
      · have h2 : ¬ b = a := fun e => h e.symm
        simp [strcmpBytes, h, h2]

/-- On NUL-free byte lists the byte loop is negative exactly when the first
list is lexicographically smaller. -/
theorem strcmpBytes_neg_iff (s t : List Nat) (ht : ∀ b ∈ t, 0 < b) :
    strcmpBytes s t < 0 ↔ List.Lex (· < ·) s t := by
  induction s generalizing t with
  | nil =>
    cases t with
    | nil => simp [strcmpBytes]
    | cons b t =>
      have hb : 0 < b := ht b (List.mem_cons_self b t)
      simp only [strcmpBytes]
      constructor
      · intro _; exact List.Lex.nil
      · intro _; omega
  | cons a s ih =>
    cases t with
    | nil =>
      simp only [strcmpBytes, List.Lex.not_nil_right, iff_false]
      omega
    | cons b t =>
      have ht2 : ∀ c ∈ t, 0 < c := fun c hc => ht c (List.mem_cons_of_mem b hc)
      by_cases h : a = b
      · subst h
        simp only [strcmpBytes, if_true]
        rw [ih t ht2]
        exact List.Lex.cons_iff.symm
      · simp only [strcmpBytes, h, if_false]
        constructor
        · intro hlt; exact List.Lex.rel (by omega)
        · intro hl
          cases hl with
          | cons _ => exact absurd rfl h
          | rel hr => omega

/-- The byte loop returns `0` exactly on equal byte lists (NUL-free). -/
theorem strcmpBytes_eq_zero_iff (s t : List Nat) (hs : ∀ b ∈ s, 0 < b)
    (ht : ∀ b ∈ t, 0 < b) : strcmpBytes s t = 0 ↔ s = t := by
  induction s generalizing t with
  | nil =>
    cases t with
    | nil => simp [strcmpBytes]
    | cons b t =>
      have hb : 0 < b := ht b (List.mem_cons_self b t)
      simp only [strcmpBytes]
      constructor
      · intro h0; omega
      · intro h0; cases h0
  | cons a s ih =>
    have ha : 0 < a := hs a (List.mem_cons_self a s)
    have hs2 : ∀ c ∈ s, 0 < c := fun c hc => hs c (List.mem_cons_of_mem a hc)
    cases t with
    | nil =>
      simp only [strcmpBytes]
      constructor
      · intro h0; omega
      · intro h0; cases h0
    | cons b t =>
      have ht2 : ∀ c ∈ t, 0 < c := fun c hc => ht c (List.mem_cons_of_mem b hc)
      by_cases h : a = b
      · subst h
        simp only [strcmpBytes, if_true]
        rw [ih t hs2 ht2]
        simp
      · simp only [strcmpBytes, h, if_false]
        constructor
        · intro h0; omega
        · intro h0; exact absurd (List.cons.inj h0).1 h

theorem strcmp_neg_iff (s t : CStr) :
    strcmp s t < 0 ↔ List.Lex (· < ·) s.bytes t.bytes :=
  strcmpBytes_neg_iff s.bytes t.bytes (fun b hb => (t.wf b hb).1)

theorem strcmp_pos_iff (s t : CStr) :
    0 < strcmp s t ↔ List.Lex (· < ·) t.bytes s.bytes := by
  rw [← strcmpBytes_neg_iff t.bytes s.bytes (fun b hb => (s.wf b hb).1)]
  unfold strcmp
  rw [strcmpBytes_swap s.bytes t.bytes]
  omega

theorem strcmp_eq_zero_iff (s t : CStr) : strcmp s t = 0 ↔ s = t := by
  unfold strcmp
  rw [strcmpBytes_eq_zero_iff s.bytes t.bytes (fun b hb => (s.wf b hb).1)
    (fun b hb => (t.wf b hb).1)]
  exact ⟨CStr.ext_bytes, fun h => congrArg CStr.bytes h⟩

/-! ## Properties of `task_compare` -/

/-- With equal due dates the comparator is the first non-zero of the two
`strcmp` results, on type and then on owner. -/
theorem task_compare_of_due_eq (a b : task_type) (h : a.due_date = b.due_date) :
    task_compare a b =
      if strcmp a.type b.type ≠ 0 then strcmp a.type b.type
      else strcmp a.owner b.owner := by
  simp [task_compare, h]

/-- C1, evaluated on the code.  A task due at `0` and a task due at
`2147483649` (both inside the 64-bit `time_t` range, same type and owner): the
earlier task compares greater than the later one (`2147483647`), and the later
one compares less than the earlier one (`-2147483647`).  The due-date
difference is truncated to 32 bits, so the earlier task does not sort first. -/
theorem task_compare_due_date_primacy_fails :
    (sampleTask 0 TASK_READ zoneA).due_date
        < (sampleTask 2147483649 TASK_READ zoneA).due_date ∧
      inTimeT (sampleTask 0 TASK_READ zoneA).due_date ∧
      inTimeT (sampleTask 2147483649 TASK_READ zoneA).due_date ∧
      task_compare (sampleTask 0 TASK_READ zoneA) (sampleTask 2147483649 TASK_READ zoneA)
        = 2147483647 ∧
      task_compare (sampleTask 2147483649 TASK_READ zoneA) (sampleTask 0 TASK_READ zoneA)
        = -2147483647 := by
  decide

/-- C2.  For two tasks with equal due dates, `task_compare a b` is negative
exactly when `a.type` is bytewise lexicographically smaller than `b.type`, or
the types are equal and `a.owner` is lexicographically smaller than `b.owner`;
it is positive exactly in the mirrored case; and it is zero exactly when types
and owners are both equal. -/
theorem task_compare_tie_break (a b : task_type) (h : a.due_date = b.due_date) :
    (task_compare a b < 0 ↔
      List.Lex (· < ·) a.type.bytes b.type.bytes ∨
        (a.type = b.type ∧ List.Lex (· < ·) a.owner.bytes b.owner.bytes)) ∧
    (0 < task_compare a b ↔
      List.Lex (· < ·) b.type.bytes a.type.bytes ∨
        (a.type = b.type ∧ List.Lex (· < ·) b.owner.bytes a.owner.bytes)) ∧
    (task_compare a b = 0 ↔ a.type = b.type ∧ a.owner = b.owner) := by
  rw [task_compare_of_due_eq a b h]
  have e1 := strcmp_neg_iff a.type b.type
  have e2 := strcmp_pos_iff a.type b.type
  have e3 := strcmp_eq_zero_iff a.type b.type
  have e4 := strcmp_neg_iff a.owner b.owner
  have e5 := strcmp_pos_iff a.owner b.owner
  have e6 := strcmp_eq_zero_iff a.owner b.owner
  rw [← e1, ← e2, ← e3, ← e4, ← e5, ← e6]
  by_cases ht : strcmp a.type b.type = 0
  · simp [ht]
  · simp only [ne_eq, ht, not_false_eq_true, if_true, false_and, or_false, iff_self,
      true_and]

/-- C2, the example of the specification: `(due=100, "[read]", "zone-b")`
compares less than `(due=100, "[sign]", "zone-a")`. -/
theorem task_compare_tie_break_witness :
    task_compare (sampleTask 100 TASK_READ zoneB) (sampleTask 100 TASK_SIGN zoneA) < 0 :=
  (task_compare_tie_break (sampleTask 100 TASK_READ zoneB)
    (sampleTask 100 TASK_SIGN zoneA) rfl).1.2 (Or.inl (by decide))

/-- C3, evaluated on the code.  Tasks `A`, `B`, `C` due at `0`, `1073741824`
and `2147483649` (same type and owner): `task_compare A B` and
`task_compare B C` are negative, yet `task_compare A C` is positive. -/
theorem task_compare_transitivity_fails :
    task_compare (sampleTask 0 TASK_SIGN zoneA) (sampleTask 1073741824 TASK_SIGN zoneA) < 0 ∧
      task_compare (sampleTask 1073741824 TASK_SIGN zoneA)
        (sampleTask 2147483649 TASK_SIGN zoneA) < 0 ∧
      0 < task_compare (sampleTask 0 TASK_SIGN zoneA)
        (sampleTask 2147483649 TASK_SIGN zoneA) := by
  decide

/-- C4, evaluated on the code.  Tasks due at `0` and at `2147483648` (same type
and owner): both `task_compare a b` and `task_compare b a` are `-2147483648`,
so each task is reported to sort before the other. -/
theorem task_compare_antisymmetry_fails :
    task_compare (sampleTask 0 TASK_SIGN zoneB) (sampleTask 2147483648 TASK_SIGN zoneB)
        = -2147483648 ∧
      task_compare (sampleTask 2147483648 TASK_SIGN zoneB) (sampleTask 0 TASK_SIGN zoneB)
        = -2147483648 := by
  decide

/-! ## Properties of `task_execute` -/

/-- C5.  A task without a callback: whatever its lock and the context,
`task_execute` returns `-1`, performs no lock operation and no call (the trace
is empty) and leaves the memory, the whole task record included, as it was. -/
theorem task_execute_no_callback {W : Type} (code : Code W) (m : Mem W) (context : Ptr)
    (h : m.task.callback = none) :
    (task_execute code m context).ret = some (-1) ∧
      (task_execute code m context).trace = [] ∧
      (task_execute code m context).mem = m := by
  simp [task_execute, h]

/-- C5 at a task that has a lock (mutex `7`) but no callback. -/
theorem task_execute_no_callback_witness :
    (task_execute countingCode (sampleMem none (some 7)) 3).ret = some (-1) ∧
      (task_execute countingCode (sampleMem none (some 7)) 3).trace = [] ∧
      (task_execute countingCode (sampleMem none (some 7)) 3).mem
        = sampleMem none (some 7) :=
  task_execute_no_callback countingCode (sampleMem none (some 7)) 3 rfl

/-- C6 as stated fails.  The task has callback `1` and mutex `7`; the callback
returns `60` and stores `NULL` in the task's `lock` field.  The executor reads
`task->lock` again and calls `pthread_mutex_unlock(NULL)`: the call does not
return, so the value `60` of the callback is not returned. -/
theorem task_execute_pass_through_counterexample :
    (sampleMem (some 1) (some 7)).task.callback = some 1 ∧
      (dropLockCode 1 (sampleMem (some 1) (some 7)).task.owner
        (sampleMem (some 1) (some 7)).task.userdata 3 (sampleMem (some 1) (some 7))).1 = 60 ∧
      (task_execute dropLockCode (sampleMem (some 1) (some 7)) 3).ret = none ∧
      (task_execute dropLockCode (sampleMem (some 1) (some 7)) 3).ret ≠ some 60 := by
  decide

/-- C6, amended.  A task with callback `f`: the trace of `task_execute` holds
exactly one call, of `f` with `(task.owner, task.userdata, context)`.  The
executor returns exactly the value of that call when the task has no lock, and
also when it has a lock and the callback leaves a non-null `lock` field; when
the task has a lock and the callback leaves `NULL` there, the executor does not
return. -/
theorem task_execute_pass_through {W : Type} (code : Code W) (m : Mem W) (context f : Ptr)
    (h : m.task.callback = some f) :
    (task_execute code m context).trace.filter Event.isCall
        = [Event.call f m.task.owner m.task.userdata context] ∧
      (m.task.lock = none →
        (task_execute code m context).ret
          = some (code f m.task.owner m.task.userdata context m).1) ∧
      (∀ l l2, m.task.lock = some l →
        (code f m.task.owner m.task.userdata context m).2.task.lock = some l2 →
        (task_execute code m context).ret
          = some (code f m.task.owner m.task.userdata context m).1) ∧
      (∀ l, m.task.lock = some l →
        (code f m.task.owner m.task.userdata context m).2.task.lock = none →
        (task_execute code m context).ret = none) := by
  refine ⟨?_, ?_, ?_, ?_⟩
  · cases hl : m.task.lock with
    | none => simp [task_execute, h, hl, Event.isCall]
    | some l =>
      cases hk : (code f m.task.owner m.task.userdata context m).2.task.lock <;>
        simp [task_execute, h, hl, hk, Event.isCall]
  · intro hl
    simp [task_execute, h, hl]
  · intro l l2 hl hk
    simp [task_execute, h, hl, hk]
  · intro l hl hk
    simp [task_execute, h, hl, hk]

/-- C6, amended, at a task with callback `1` and mutex `7` whose callback does
not touch the task: the return value is `due_date + 60 = 160`. -/
theorem task_execute_pass_through_witness :
    (task_execute countingCode (sampleMem (some 1) (some 7)) 3).ret = some 160 :=
  (task_execute_pass_through countingCode (sampleMem (some 1) (some 7)) 3 1 rfl).2.2.1
    7 7 rfl rfl

/-- C7 as stated fails.  The task has callback `1` and mutex `7`; the callback
stores mutex `8` in the task's `lock` field.  The executor reads `task->lock`
again for the unlock, so the trace ends with a release of mutex `8`, not of the
mutex `7` that was acquired. -/
theorem task_execute_scoped_lock_counterexample :
    (sampleMem (some 1) (some 7)).task.callback = some 1 ∧
      (sampleMem (some 1) (some 7)).task.lock = some 7 ∧
      (task_execute relockCode (sampleMem (some 1) (some 7)) 3).trace
        = [Event.acquire 7, Event.call 1 zoneA 5 3, Event.release 8] ∧
      (task_execute relockCode (sampleMem (some 1) (some 7)) 3).trace
        ≠ [Event.acquire 7, Event.call 1 zoneA 5 3, Event.release 7] := by
  decide

/-- C7, amended.  A task with callback `f` and lock `l`.  If the callback
leaves the non-null address `l2` in the task's `lock` field, the trace is
exactly `[acquire l, call f owner userdata context, release l2]`: the acquire
of `l` comes first, the call second, the one release last, and the executor
returns.  In particular the trace is `[acquire l, call, release l]` whenever
the callback leaves the `lock` field unchanged.  If the callback leaves `NULL`
there, the trace is `[acquire l, call]` and the executor does not return.  For
a task without a lock the trace is exactly the single call. -/
theorem task_execute_scoped_lock {W : Type} (code : Code W) (m : Mem W) (context f : Ptr)
    (h : m.task.callback = some f) :
    (∀ l l2, m.task.lock = some l →
      (code f m.task.owner m.task.userdata context m).2.task.lock = some l2 →
      (task_execute code m context).trace
          = [Event.acquire l, Event.call f m.task.owner m.task.userdata context,
             Event.release l2] ∧
        ((task_execute code m context).trace.filter Event.isAcquire).length = 1 ∧
        ((task_execute code m context).trace.filter Event.isRelease).length = 1 ∧
        (task_execute code m context).ret
          = some (code f m.task.owner m.task.userdata context m).1) ∧
    (∀ l, m.task.lock = some l →
      (code f m.task.owner m.task.userdata context m).2.task.lock = m.task.lock →
      (task_execute code m context).trace
        = [Event.acquire l, Event.call f m.task.owner m.task.userdata context,
           Event.release l]) ∧
    (∀ l, m.task.lock = some l →
      (code f m.task.owner m.task.userdata context m).2.task.lock = none →
      (task_execute code m context).trace
          = [Event.acquire l, Event.call f m.task.owner m.task.userdata context] ∧
        (task_execute code m context).ret = none) ∧
    (m.task.lock = none →
      (task_execute code m context).trace
        = [Event.call f m.task.owner m.task.userdata context]) := by
  refine ⟨?_, ?_, ?_, ?_⟩
  · intro l l2 hl hk
    simp [task_execute, h, hl, hk, Event.isAcquire, Event.isRelease]
  · intro l hl hk
    rw [hl] at hk
    simp [task_execute, h, hl, hk]
  · intro l hl hk
    simp [task_execute, h, hl, hk]
  · intro hl
    simp [task_execute, h, hl]

/-- C7, amended, at a task with callback `1` and mutex `7` whose callback does
not touch the task: the trace is acquire, call, release of mutex `7`. -/
theorem task_execute_scoped_lock_witness :
    (task_execute countingCode (sampleMem (some 1) (some 7)) 3).trace
      = [Event.acquire 7, Event.call 1 zoneA 5 3, Event.release 7] :=
  (task_execute_scoped_lock countingCode (sampleMem (some 1) (some 7)) 3 1 rfl).2.1
    7 rfl rfl

/-- C9.  If the callback of the task (when it has one) leaves the task record
as it found it, the task record after `task_execute` equals the task record
before it, field for field.  The executor adds no write of its own: the memory
it leaves is the memory the callback left, or the initial memory when there is
no callback. -/
theorem task_execute_frame {W : Type} (code : Code W) (m : Mem W) (context : Ptr)
    (hcb : ∀ f, m.task.callback = some f →
      (code f m.task.owner m.task.userdata context m).2.task = m.task) :
    (task_execute code m context).mem.task = m.task ∧
      (∀ f, m.task.callback = some f →
        (task_execute code m context).mem
          = (code f m.task.owner m.task.userdata context m).2) ∧
      (m.task.callback = none → (task_execute code m context).mem = m) := by
  cases hc : m.task.callback with
  | none => simp [task_execute, hc]
  | some f =>
    have hf := hcb f hc
    cases hl : m.task.lock <;> simp [task_execute, hc, hl, hf]

/-- C9 at a task with callback `1` and mutex `7`, whose callback bumps the
counter outside the task: the task record is unchanged. -/
theorem task_execute_frame_witness :
    (task_execute countingCode (sampleMem (some 1) (some 7)) 3).mem.task
      = (sampleMem (some 1) (some 7)).task :=
  (task_execute_frame countingCode (sampleMem (some 1) (some 7)) 3
    (fun _ _ => rfl)).1

/-! ## Properties of `task_create` -/

/-- C10.  With non-null `owner`, `class` and `type`, `task_create` returns a
task whose `owner`, `class`, `type`, `callback`, `userdata`, `freedata` and
`due_date` are the arguments, whose `backoff` and `flush` are `0` and whose
`lock` is `NULL`. -/
theorem task_create_post (owner class_ type : CStr) (callback : Option Ptr)
    (userdata : Ptr) (freedata : Option Ptr) (due_date : Int) :
    ∃ t, task_create (some owner) (some class_) (some type) callback userdata freedata
          due_date = some t ∧
      t.owner = owner ∧ t.class_ = class_ ∧ t.type = type ∧ t.callback = callback ∧
      t.userdata = userdata ∧ t.freedata = freedata ∧ t.due_date = due_date ∧
      t.backoff = 0 ∧ t.flush = 0 ∧ t.lock = none :=
  ⟨_, rfl, rfl, rfl, rfl, rfl, rfl, rfl, rfl, rfl, rfl, rfl⟩

/-! ## Properties of `task_destroy` -/

/-- C11.  `task_destroy` produces the trace `[free(owner), freedata(userdata),
free(task)]` when `freedata` is supplied and `[free(owner), free(task)]` when
it is absent: the owner string is released exactly once, a supplied `freedata`
is called exactly once, on the task's `userdata`, and without `freedata` no
callback is called. -/
theorem task_destroy_trace (t : task_type) :
    (∀ f, t.freedata = some f →
      task_destroy t
        = [DestroyEvent.freeOwner t.owner, DestroyEvent.freedata f t.userdata,
           DestroyEvent.freeTask]) ∧
    (t.freedata = none →
      task_destroy t = [DestroyEvent.freeOwner t.owner, DestroyEvent.freeTask]) ∧
    (task_destroy t).filter DestroyEvent.isFreeOwner = [DestroyEvent.freeOwner t.owner] ∧
    (∀ f, t.freedata = some f →
      (task_destroy t).filter DestroyEvent.isFreedata
        = [DestroyEvent.freedata f t.userdata]) ∧
    (t.freedata = none → (task_destroy t).filter DestroyEvent.isFreedata = []) := by
  cases hf : t.freedata <;>
    simp [task_destroy, hf, DestroyEvent.isFreeOwner, DestroyEvent.isFreedata]

/-- C11 at a `"[sign]"` task of `"zone-a"` with payload `5` and free-data
function `9`. -/
theorem task_destroy_trace_witness :
    task_destroy { sampleTask 100 TASK_SIGN zoneA with userdata := 5, freedata := some 9 }
      = [DestroyEvent.freeOwner zoneA, DestroyEvent.freedata 9 5, DestroyEvent.freeTask] :=
  (task_destroy_trace
    { sampleTask 100 TASK_SIGN zoneA with userdata := 5, freedata := some 9 }).1 9 rfl

/-! ## Properties of `task_log` -/

/-- C12.  For a non-null task whose due date the formatter cannot render
(`ctime` returns `NULL`), `task_log` stays within defined behaviour and hands
exactly one line to the debug log:
`"[task] " ++ F ++ " (null) I will " ++ type ++ " zone " ++ owner`, where `F`
is `"Flush"` for a non-zero `flush` and `"On"` otherwise. -/
theorem task_log_unformattable (ctime : Int → Option CStr) (t : task_type)
    (h : ctime t.due_date = none) :
    task_log ctime (some t)
      = some [LogEvent.ctime t.due_date,
          LogEvent.debug (ascii "[task] " ++
            (if t.flush ≠ 0 then ascii "Flush" else ascii "On") ++
            ascii " (null) I will " ++ t.type.bytes ++ ascii " zone " ++ t.owner.bytes)] := by
  by_cases hfl : t.flush = 0 <;>
    simp [task_log, h, ods_log_debug, task_str, ascii, expandFormat, hfl]

/-- C12 at a `"[sign]"` task of `"zone-a"` with a formatter that always fails:
the line reads `[task] On (null) I will [sign] zone zone-a`. -/
theorem task_log_unformattable_witness :
    task_log ctimeNull (some (sampleTask 100 TASK_SIGN zoneA))
      = some [LogEvent.ctime 100,
          LogEvent.debug (ascii "[task] On (null) I will [sign] zone zone-a")] :=
  task_log_unformattable ctimeNull (sampleTask 100 TASK_SIGN zoneA) rfl

/-- C13.  On a null task `task_log` stays within defined behaviour and does
nothing: no line is logged and the formatter is not called. -/
theorem task_log_null (ctime : Int → Option CStr) : task_log ctime none = some [] :=
  rfl

/-- C18.  For a non-null task whose due date formats to a non-empty string
`s`, `task_log` hands exactly one line to the debug log:
`"[task] " ++ F ++ " " ++ s' ++ " I will " ++ type ++ " zone " ++ owner`, where
`F` is `"Flush"` for a non-zero `flush` and `"On"` otherwise and `s'` is `s`
without its last byte. -/
theorem task_log_line (ctime : Int → Option CStr) (t : task_type) (s : CStr)
    (h : ctime t.due_date = some s) (hne : s.bytes ≠ []) :
    task_log ctime (some t)
      = some [LogEvent.ctime t.due_date,
          LogEvent.debug (ascii "[task] " ++
            (if t.flush ≠ 0 then ascii "Flush" else ascii "On") ++
            ascii " " ++ s.bytes.dropLast ++ ascii " I will " ++ t.type.bytes ++
            ascii " zone " ++ t.owner.bytes)] := by
  by_cases hfl : t.flush = 0 <;>
    simp [task_log, h, hne, ods_log_debug, task_str, ascii, expandFormat, hfl]

/-- C18 at a flushed `"[sign]"` task of `"zone-a"` whose due date formats to
`"Thu Jan  1 00:01:40 1970"` followed by a newline. -/
theorem task_log_line_witness :
    task_log ctimeFixed (some { sampleTask 100 TASK_SIGN zoneA with flush := 1 })
      = some [LogEvent.ctime 100,
          LogEvent.debug
            (ascii "[task] Flush Thu Jan  1 00:01:40 1970 I will [sign] zone zone-a")] :=
  task_log_line ctimeFixed { sampleTask 100 TASK_SIGN zoneA with flush := 1 }
    ⟨[84, 104, 117, 32, 74, 97, 110, 32, 32, 49, 32, 48, 48, 58, 48, 49, 58, 52, 48,
      32, 49, 57, 55, 48, 10], by decide⟩ rfl (by decide)

/-! ## Equality under `task_compare` -/

/-- C19, evaluated on the code.  Tasks due at `0` and at `4294967296` (both in
the 64-bit `time_t` range, same type and owner) have different due dates, yet
`task_compare` returns `0` in both directions. -/
theorem task_compare_zero_on_distinct_due :
    (sampleTask 0 TASK_READ zoneB).due_date ≠ (sampleTask 4294967296 TASK_READ zoneB).due_date ∧
      inTimeT (sampleTask 4294967296 TASK_READ zoneB).due_date ∧
      task_compare (sampleTask 0 TASK_READ zoneB) (sampleTask 4294967296 TASK_READ zoneB) = 0 ∧
      task_compare (sampleTask 4294967296 TASK_READ zoneB) (sampleTask 0 TASK_READ zoneB) = 0 := by
  decide

end Signer

/-! ## Properties of the keyword tables -/

namespace Ksm

open Signer

/-- On a table of the static shape the loop of `KsmKeywordParameterExists`
answers `1` when the name is one of the listed strings and `0` otherwise. -/
theorem parameterExistsLoop_keywordTable (entries : List (CStr × Int)) (n : CStr) :
    parameterExistsLoop (keywordTable entries) n
      = if n ∈ entries.map Prod.fst then some 1 else some 0 := by
  induction entries with
  | nil => simp [keywordTable, parameterExistsLoop]
  | cons e es ih =>
    have hstep : parameterExistsLoop (keywordTable (e :: es)) n
        = if strcmp n e.1 = 0 then some 1 else parameterExistsLoop (keywordTable es) n := by
      simp [keywordTable, parameterExistsLoop]
    rw [hstep, ih]
    by_cases hne : n = e.1
    · have h0 : strcmp n e.1 = 0 := (strcmp_eq_zero_iff n e.1).2 hne
      have hm : n ∈ (e :: es).map Prod.fst := by
        rw [List.map_cons, hne]; exact List.mem_cons_self _ _
      rw [if_pos h0, if_pos hm]
    · have h0 : ¬ strcmp n e.1 = 0 := fun h => hne ((strcmp_eq_zero_iff n e.1).1 h)
      rw [if_neg h0]
      by_cases hm : n ∈ es.map Prod.fst
      · have hm2 : n ∈ (e :: es).map Prod.fst := by
          rw [List.map_cons]; exact List.mem_cons_of_mem _ hm
        rw [if_pos hm, if_pos hm2]
      · have hm2 : n ∉ (e :: es).map Prod.fst := by
          rw [List.map_cons]
          intro hin
          cases List.mem_cons.1 hin with
          | inl h1 => exact hne h1
          | inr h2 => exact hm h2
        rw [if_neg hm, if_neg hm2]

/-- The loop of `KsmKeywordValueToName` skips leading elements that have a
string and another value. -/
theorem KsmKeywordValueToName_skip (pre : List (CStr × Int)) (rest : List STR_KEYWORD_ELEMENT)
    (value : Int) (h : ∀ x ∈ pre, x.2 ≠ value) :
    KsmKeywordValueToName
        (pre.map (fun e => { string := some e.1, value := e.2 }) ++ rest) value
      = KsmKeywordValueToName rest value := by
  induction pre with
  | nil => simp
  | cons e es ih =>
    have he : ¬ value = e.2 := fun hv => h e (List.mem_cons_self e es) hv.symm
    have hes : ∀ x ∈ es, x.2 ≠ value := fun x hx => h x (List.mem_cons_of_mem e hx)
    simp [KsmKeywordValueToName, he, ih hes]

/-- On a terminated table the result of `KsmKeywordValueToName` is `NULL`
exactly when no element before the terminator has the value. -/
theorem KsmKeywordValueToName_null_iff (entries : List (CStr × Int)) (tv : Int)
    (post : List STR_KEYWORD_ELEMENT) (value : Int) :
    KsmKeywordValueToName
        (entries.map (fun e => { string := some e.1, value := e.2 }) ++
          { string := none, value := tv } :: post) value = some none
      ↔ ∀ e ∈ entries, e.2 ≠ value := by
  induction entries with
  | nil => simp [KsmKeywordValueToName]
  | cons e es ih =>
    by_cases hv : value = e.2
    · simp [KsmKeywordValueToName, hv]
    · have hv2 : ¬ e.2 = value := fun h => hv h.symm
      simp [KsmKeywordValueToName, hv, hv2, ih]

/-- C14.  `KsmKeywordParameterExists(name)` returns `1` exactly when `name` is
not `NULL` and equals, as a whole string, one of the strings of the parameter
table; in every other case it returns `0`.  In particular a name that begins a
keyword without being a keyword of the table itself yields `0`. -/
theorem KsmKeywordParameterExists_exact (entries : List (CStr × Int)) (name : Option CStr) :
    (KsmKeywordParameterExists entries name = some 1
      ↔ ∃ n, name = some n ∧ n ∈ entries.map Prod.fst) ∧
    (KsmKeywordParameterExists entries name = some 0
      ↔ ¬ ∃ n, name = some n ∧ n ∈ entries.map Prod.fst) ∧
    (∀ n k, name = some n → k ∈ entries.map Prod.fst → n.bytes <+: k.bytes →
      n ∉ entries.map Prod.fst → KsmKeywordParameterExists entries name = some 0) := by
  cases name with
  | none => simp [KsmKeywordParameterExists]
  | some n =>
    have hl := parameterExistsLoop_keywordTable entries n
    by_cases hm : n ∈ entries.map Prod.fst
    · rw [if_pos hm] at hl
      refine ⟨?_, ?_, ?_⟩
      · simp only [KsmKeywordParameterExists, m_parameter_keywords, hl, true_iff]
        exact ⟨n, rfl, hm⟩
      · simp only [KsmKeywordParameterExists, m_parameter_keywords, hl]
        constructor
        · intro h; cases h
        · intro h; exact absurd ⟨n, rfl, hm⟩ h
      · intro n2 k hn _ _ hnot
        cases hn
        exact absurd hm hnot
    · rw [if_neg hm] at hl
      refine ⟨?_, ?_, ?_⟩
      · simp only [KsmKeywordParameterExists, m_parameter_keywords, hl]
        constructor
        · intro h; cases h
        · rintro ⟨n2, hn, hmem⟩
          cases hn
          exact absurd hmem hm
      · simp only [KsmKeywordParameterExists, m_parameter_keywords, hl, true_iff]
        rintro ⟨n2, hn, hmem⟩
        cases hn
        exact absurd hmem hm
      · intro n2 k hn _ _ _
        simp only [KsmKeywordParameterExists, m_parameter_keywords, hl]

/-- C14 at the sample table `"soamin"`, `"soattl"`: the name `"soa"` begins
both keywords and is no keyword, so the answer is `0`. -/
theorem KsmKeywordParameterExists_exact_witness :
    KsmKeywordParameterExists sampleEntries (some kwSoa) = some 0 :=
  (KsmKeywordParameterExists_exact sampleEntries (some kwSoa)).2.2 kwSoa kwSoamin rfl
    (by decide) (by decide) (by decide)

/-- C15.  On every table that is a run of elements with strings followed by a
`NULL` terminator (with any value `tv`, and anything behind it),
`KsmKeywordValueToName` returns `NULL` exactly when no element before the
terminator has the value, and otherwise the string of the first element that
has it; the terminator is never matched.  For the algorithm, format, state and
type tables, looking up `-1` gives `NULL` exactly when no listed entry has value
`-1`. -/
theorem KsmKeywordValueToName_spec (entries : List (CStr × Int)) (tv : Int)
    (post : List STR_KEYWORD_ELEMENT) (value : Int) :
    (KsmKeywordValueToName
        (entries.map (fun e => { string := some e.1, value := e.2 }) ++
          { string := none, value := tv } :: post) value = some none
      ↔ ∀ e ∈ entries, e.2 ≠ value) ∧
    (∀ pre e suf, entries = pre ++ e :: suf → (∀ x ∈ pre, x.2 ≠ value) → e.2 = value →
      KsmKeywordValueToName
        (entries.map (fun e => { string := some e.1, value := e.2 }) ++
          { string := none, value := tv } :: post) value = some (some e.1)) ∧
    (KsmKeywordAlgorithmValueToName entries (-1) = some none ↔ ∀ e ∈ entries, e.2 ≠ -1) ∧
    (KsmKeywordFormatValueToName entries (-1) = some none ↔ ∀ e ∈ entries, e.2 ≠ -1) ∧
    (KsmKeywordStateValueToName entries (-1) = some none ↔ ∀ e ∈ entries, e.2 ≠ -1) ∧
    (KsmKeywordTypeValueToName entries (-1) = some none ↔ ∀ e ∈ entries, e.2 ≠ -1) := by
  refine ⟨KsmKeywordValueToName_null_iff entries tv post value, ?_,
    KsmKeywordValueToName_null_iff entries (-1) [] (-1),
    KsmKeywordValueToName_null_iff entries (-1) [] (-1),
    KsmKeywordValueToName_null_iff entries (-1) [] (-1),
    KsmKeywordValueToName_null_iff entries (-1) [] (-1)⟩
  intro pre e suf hsplit hpre he
  subst hsplit
  rw [List.map_append, List.append_assoc, KsmKeywordValueToName_skip pre _ value hpre]
  simp [KsmKeywordValueToName, he]

/-- C15 at the sample table: `3600` is the value of the second entry, whose
string `"soattl"` is returned. -/
theorem KsmKeywordValueToName_spec_witness :
    KsmKeywordValueToName
        (sampleEntries.map (fun e => { string := some e.1, value := e.2 }) ++
          { string := none, value := -1 } :: []) 3600 = some (some kwSoattl) :=
  (KsmKeywordValueToName_spec sampleEntries (-1) [] 3600).2.1
    [(kwSoamin, 7200)] (kwSoattl, 3600) [] rfl (by decide) rfl

end Ksm

/-! ## Properties of the key store -/

namespace SoftHSM

/-- When the index matches, `removeKey` replaces the object by its
successor. -/
theorem SoftKeyStore.removeKey_node_same (k : Option KeyPtr) (i : Int) (next : SoftKeyStore) :
    (SoftKeyStore.node k i next).removeKey i = next := by
  cases next <;> simp [SoftKeyStore.removeKey]

/-- When the index differs, `removeKey` passes the call on. -/
theorem SoftKeyStore.removeKey_node_other (k : Option KeyPtr) (i j : Int)
    (next : SoftKeyStore) (h : j ≠ i) :
    (SoftKeyStore.node k i next).removeKey j = SoftKeyStore.node k i (next.removeKey j) := by
  simp [SoftKeyStore.removeKey, h]

/-- An index the store does not hold is not found. -/
theorem SoftKeyStore.getKey_of_not_mem (s : SoftKeyStore) (i : Int) (h : i ∉ s.indices) :
    s.getKey i = none := by
  induction s with
  | last k j => simp [SoftKeyStore.getKey]
  | node k j next ih =>
    simp only [SoftKeyStore.indices, List.mem_cons, not_or] at h
    simp [SoftKeyStore.getKey, h.1, ih h.2]

/-- C16.  For every store `s` (in particular every store built from a fresh
one by `addKey` and `removeKey` calls), every index `i` that `s` does not hold
and every key `k`: after `s.addKey(i, k)`, `getKey(i)` returns `k`. -/
theorem SoftKeyStore.addKey_getKey (s : SoftKeyStore) (i : Int) (k : Option KeyPtr)
    (h : i ∉ s.indices) : (s.addKey i k).getKey i = k := by
  induction s with
  | last k0 j => simp [SoftKeyStore.addKey, SoftKeyStore.getKey]
  | node k0 j next ih =>
    simp only [SoftKeyStore.indices, List.mem_cons, not_or] at h
    simp [SoftKeyStore.addKey, SoftKeyStore.getKey, h.1, ih h.2]

/-- C16 at the store built by `addKey(1, 10)`, `addKey(2, 20)`, `removeKey(1)`:
adding key `30` under the free index `1` makes `getKey(1)` return it. -/
theorem SoftKeyStore.addKey_getKey_witness :
    ((build [Op.addKey 1 (some 10), Op.addKey 2 (some 20), Op.removeKey 1]).addKey 1
        (some 30)).getKey 1 = some 30 :=
  SoftKeyStore.addKey_getKey
    (build [Op.addKey 1 (some 10), Op.addKey 2 (some 20), Op.removeKey 1]) 1 (some 30)
    (by decide)

/-- C17 as stated fails.  The store built by `addKey(1, 10)`, `addKey(1, 20)`
holds index `1` twice; `removeKey(1)` drops the first of the two, and
`getKey(1)` then returns key `20`, not `NULL`. -/
theorem SoftKeyStore.removeKey_getKey_counterexample :
    ((build [Op.addKey 1 (some 10), Op.addKey 1 (some 20)]).removeKey 1).getKey 1
        = some 20 ∧
      ((build [Op.addKey 1 (some 10), Op.addKey 1 (some 20)]).removeKey 1).getKey 1
        ≠ none := by
  decide

/-- C17, amended.  For every store `s` and index `i`: if `s` holds `i` at most
once, then after `s.removeKey(i)` the call `getKey(i)` returns `NULL`; and if
`s` does not hold `i`, `removeKey(i)` leaves the store unchanged. -/
theorem SoftKeyStore.removeKey_getKey (s : SoftKeyStore) (i : Int) :
    (s.indices.count i ≤ 1 → (s.removeKey i).getKey i = none) ∧
      (i ∉ s.indices → s.removeKey i = s) := by
  induction s with
  | last k j =>
    simp [SoftKeyStore.removeKey, SoftKeyStore.getKey]
  | node k j next ih =>
    by_cases hij : i = j
    · subst hij
      constructor
      · intro hc
        rw [SoftKeyStore.removeKey_node_same]
        apply SoftKeyStore.getKey_of_not_mem
        intro hmem
        have hpos : 0 < next.indices.count i := List.count_pos_iff.2 hmem
        simp only [SoftKeyStore.indices, List.count_cons_self] at hc
        omega
      · intro hn
        simp [SoftKeyStore.indices] at hn
    · have hji : ¬ j = i := fun e => hij e.symm
      constructor
      · intro hc
        rw [SoftKeyStore.removeKey_node_other k j i next hij]
        have hc2 : next.indices.count i ≤ 1 := by
          simpa [SoftKeyStore.indices, List.count_cons, hji] using hc
        simp [SoftKeyStore.getKey, hij, ih.1 hc2]
      · intro hn
        simp only [SoftKeyStore.indices, List.mem_cons, not_or] at hn
        rw [SoftKeyStore.removeKey_node_other k j i next hij, ih.2 hn.2]

/-- C17, amended, at the store built by `addKey(1, 10)`, `addKey(2, 20)`, which
holds index `1` once: after `removeKey(1)`, `getKey(1)` returns `NULL`. -/
theorem SoftKeyStore.removeKey_getKey_witness :
    ((build [Op.addKey 1 (some 10), Op.addKey 2 (some 20)]).removeKey 1).getKey 1 = none :=
  (SoftKeyStore.removeKey_getKey (build [Op.addKey 1 (some 10), Op.addKey 2 (some 20)]) 1).1
    (by decide)

/-- C20.  For every store `s`, distinct indices `i` and `j` and key `k`,
`getKey(j)` returns the same key after `s.addKey(i, k)` as before, and the same
key after `s.removeKey(i)` as before; a freshly constructed store returns
`NULL` for every index. -/
theorem SoftKeyStore.getKey_frame (s : SoftKeyStore) (i j : Int) (k : Option KeyPtr)
    (h : i ≠ j) :
    (s.addKey i k).getKey j = s.getKey j ∧
      (s.removeKey i).getKey j = s.getKey j ∧
      (∀ x, newSoftKeyStore.getKey x = none) := by
  have hji : ¬ j = i := fun e => h e.symm
  refine ⟨?_, ?_, fun x => rfl⟩
  · induction s with
    | last k0 i0 =>
      simp [SoftKeyStore.addKey, SoftKeyStore.getKey, hji, newSoftKeyStore]
    | node k0 i0 next ih =>
      simp [SoftKeyStore.addKey, SoftKeyStore.getKey, ih]
  · induction s with
    | last k0 i0 => simp [SoftKeyStore.removeKey]
    | node k0 i0 next ih =>
      by_cases hi : i = i0
      · subst hi
        rw [SoftKeyStore.removeKey_node_same]
        simp [SoftKeyStore.getKey, hji]
      · rw [SoftKeyStore.removeKey_node_other k0 i0 i next hi]
        simp [SoftKeyStore.getKey, ih]

/-- C20 at the store built by `addKey(1, 10)`, `addKey(2, 20)`: adding under
index `3` or removing index `1` leaves `getKey(2)` at key `20`. -/
theorem SoftKeyStore.getKey_frame_witness :
    ((build [Op.addKey 1 (some 10), Op.addKey 2 (some 20)]).addKey 3 (some 30)).getKey 2
        = some 20 ∧
      ((build [Op.addKey 1 (some 10), Op.addKey 2 (some 20)]).removeKey 1).getKey 2
        = some 20 :=
  ⟨(SoftKeyStore.getKey_frame (build [Op.addKey 1 (some 10), Op.addKey 2 (some 20)])
      3 2 (some 30) (by decide)).1,
   (SoftKeyStore.getKey_frame (build [Op.addKey 1 (some 10), Op.addKey 2 (some 20)])
      1 2 (some 30) (by decide)).2.1⟩

end SoftHSM
